import Mathlib

/-!
Verification development for the firefox-sound-tab-detector extension.

The background script keeps an in-memory cache of audible tabs
(a JS Map from tab id to a record) with a 30-minute retention window for
tabs that stopped playing, pushes snapshots to connected popup ports, and
a content script resolves a "skip track" request by trying an ordered
chain of strategies (button click, media session, player API, keyboard
events).

JS values are embedded as follows: the Map becomes an insertion-ordered
list of records with unique ids maintained by the operations; timestamps
are Nat milliseconds; JS `false` returned by upsertFromTab becomes
`Option.none`; truthiness of strings is emptiness; host behaviour
(DOM queries, whether a dispatch throws) is a parameter of the page
state; imperative effects (clicks, dispatches) are returned as an
explicit effect trace.
-/

/-! ## Audible tab cache (background script, retention variant) -/

/-- Result of upsertFromTab. The source returns the strings
"added" / "updated" / "removed" or the boolean `false`; the enum covers
the strings and `Option.none` stands for JS `false` (the spec calls this
outcome `none`). -/
inductive ChangeKind where
  | added
  | updated
  | removed
deriving DecidableEq, Repr

/-- A host-reported tab object as consumed by upsertFromTab.
`id = Option.none` models a null or undefined `tab.id`; empty strings
model absent/empty (falsy) `title` and `url`; `mutedInfoMuted` models
the truthiness of `tab.mutedInfo && tab.mutedInfo.muted`. -/
structure TabSnapshot where
  id : Option Nat
  title : String
  url : String
  audible : Bool
  mutedInfoMuted : Bool
deriving DecidableEq, Repr

/-- A cached record, the value stored in audibleTabsMap. -/
structure TabRecord where
  id : Nat
  title : String
  url : String
  audible : Bool
  muted : Bool
  lastActive : Nat
deriving DecidableEq, Repr

/-- Cache state: the JS Map in insertion order. -/
abbrev Cache := List TabRecord

/-- Key list of the cache. -/
def ids (m : Cache) : List Nat := m.map (·.id)

/-- Map.has(i). -/
def mapHas (m : Cache) (i : Nat) : Bool := m.any (fun r => r.id == i)

/-- Map.get(i): the entry with key i (JS Maps hold at most one). -/
def mapGet (m : Cache) (i : Nat) : Option TabRecord := m.find? (fun r => r.id == i)

/-- Map.set(i, r): replace in place when the key exists (JS Maps keep the
original position), append otherwise. -/
def mapSet (m : Cache) (r : TabRecord) : Cache :=
  if mapHas m r.id then m.map (fun x => if x.id == r.id then r else x) else m ++ [r]

/-- Map.delete(i). -/
def mapDelete (m : Cache) (i : Nat) : Cache := m.filter (fun r => r.id != i)

/-- TAB_RETENTION_MS = 30 * 60 * 1000. -/
def TAB_RETENTION_MS : Nat := 30 * 60 * 1000

/-- The record literal built in the audible branch of upsertFromTab:
title falls back along `tab.title || tab.url || "Tab " + id` with empty
strings falsy, audible is set true and lastActive is the current time. -/
def freshRecord (t : TabSnapshot) (i now : Nat) : TabRecord :=
  { id := i
    title := if t.title != "" then t.title else if t.url != "" then t.url else s!"Tab {i}"
    url := t.url
    audible := true
    muted := t.mutedInfoMuted
    lastActive := now }

/-- The in-place mutation of the inaudible branch: audible is cleared and
lastActive is `existingTab.lastActive || now` (kept unless falsy, i.e. 0). -/
def markInactive (now : Nat) (x : TabRecord) : TabRecord :=
  { x with audible := false, lastActive := if x.lastActive == 0 then now else x.lastActive }

/-- upsertFromTab(tab): guard on null tab / null id, then the audible
branch sets a fresh record, the inaudible branch flips an existing
record to inactive, otherwise nothing happens. Returns the new cache
and the change kind (none for JS false). -/
def upsertFromTab (m : Cache) (now : Nat) (tab : Option TabSnapshot) :
    Cache × Option ChangeKind :=
  match tab with
  | none => (m, none)
  | some t =>
    match t.id with
    | none => (m, none)
    | some i =>
      let was := mapHas m i
      if t.audible then
        (mapSet m (freshRecord t i now),
         some (if was then ChangeKind.updated else ChangeKind.added))
      else if was then
        (m.map (fun x => if x.id == i then markInactive now x else x),
         some ChangeKind.updated)
      else (m, none)

/-- cleanupOldTabs(): delete every record with audible=false and
now - lastActive >= TAB_RETENTION_MS. Nat subtraction truncates at 0
exactly as the JS comparison of a negative difference fails. -/
def cleanupOldTabs (m : Cache) (now : Nat) : Cache :=
  m.filter (fun t => !(!t.audible && decide (TAB_RETENTION_MS ≤ now - t.lastActive)))

/-- getAudibleTabs(): runs cleanupOldTabs, then returns the values that
are audible or still within the retention window. The first component
is the cache after the cleanup mutation, the second the returned list. -/
def getAudibleTabs (m : Cache) (now : Nat) : Cache × List TabRecord :=
  let m2 := cleanupOldTabs m now
  (m2, m2.filter (fun t => t.audible || decide (now - t.lastActive < TAB_RETENTION_MS)))

/-- Cache-mutating events delivered to the background script: an
upsertFromTab call, a cleanupOldTabs run (timer or read), and the
onRemoved handler deleting a closed tab. -/
inductive CacheOp where
  | upsertOp (now : Nat) (tab : Option TabSnapshot)
  | cleanupOp (now : Nat)
  | removeOp (i : Nat)
deriving DecidableEq, Repr

def applyOp (m : Cache) : CacheOp → Cache
  | CacheOp.upsertOp now tab => (upsertFromTab m now tab).1
  | CacheOp.cleanupOp now => cleanupOldTabs m now
  | CacheOp.removeOp i => mapDelete m i

def applyOps (m : Cache) (ops : List CacheOp) : Cache := ops.foldl applyOp m

/-- Whether an event re-announces tab i as audible (the only kind of
event that can create a record for i). -/
def audibleUpsertFor (i : Nat) : CacheOp → Bool
  | CacheOp.upsertOp _ (some t) => (t.id == some i) && t.audible
  | _ => false

/-! ## Popup sync channel -/

/-- A connected popup port: its identity and whether postMessage on it
throws (dead channel). -/
structure Port where
  pid : Nat
  postThrows : Bool
deriving DecidableEq, Repr

/-- The snapshot the onConnect listener sends to a newly connected
popup: `Array.from(audibleTabsMap.values())`, the raw map with no
cleanup and no filtering. -/
def onConnectSnapshot (m : Cache) : List TabRecord := m

/-- The tabs array built by pushUpdateToPopup: the raw map values, each
paired with `isPlaying = tab.audible`; again no cleanup, no filtering. -/
def pushTabs (m : Cache) : List (TabRecord × Bool) := m.map (fun t => (t, t.audible))

/-- pushUpdateToPopup(): early return when no port is connected;
otherwise postMessage is attempted on every port in the set, a throwing
port is caught and deleted, and the loop continues. Returns the
remaining port set, the list of port ids on which a post was attempted,
and the pushed tabs array. -/
def pushUpdateToPopup (ports : List Port) (m : Cache) :
    List Port × List Nat × List (TabRecord × Bool) :=
  if ports.isEmpty then (ports, [], [])
  else (ports.filter (fun q => !q.postThrows), ports.map (·.pid), pushTabs m)

/-- The port.onDisconnect listener: popupPorts.delete(port). -/
def onPortDisconnect (ports : List Port) (pid : Nat) : List Port :=
  ports.filter (fun q => q.pid != pid)

/-! ## Skip resolver (content scripts) -/

/-- A DOM element as seen by the visibility check: computed style and
rendered size. `eid` is the identity used by the click effect. -/
structure Element where
  eid : Nat
  display : String
  visibility : String
  opacity : String
  offsetWidth : Nat
  offsetHeight : Nat
deriving DecidableEq, Repr

/-- The visibility predicate of the button probe. -/
def isVisible (b : Element) : Bool :=
  b.display != "none" && b.visibility != "hidden" && b.opacity != "0" &&
    decide (0 < b.offsetWidth) && decide (0 < b.offsetHeight)

/-- An audio/video element as probed by the (unused) mediaWithTracks
computation of the content script. -/
structure MediaEl where
  hasNextTrack : Bool
  hasPreviousTrack : Bool
  audioTracksCount : Nat
deriving DecidableEq, Repr

/-- A candidate player object: which track methods it exposes and
whether calling each throws. -/
structure Player where
  hasNextTrack : Bool
  hasPreviousTrack : Bool
  nextThrows : Bool
  prevThrows : Bool
deriving DecidableEq, Repr

/-- The three dispatch targets of the keyboard strategy: document,
window, document.activeElement. -/
inductive KTarget where
  | doc
  | win
  | active
deriving DecidableEq, Repr

def allKTargets : List KTarget := [KTarget.doc, KTarget.win, KTarget.active]

/-- The page execution context a skipTrack call runs against.
`query` is document.querySelectorAll; media-session and player
availability and whether each host call throws are host behaviour
parameters. -/
structure Page where
  query : String → List Element
  mediaElements : List MediaEl
  hasMediaSession : Bool
  hasSetActionHandler : Bool
  mediaSessionThrows : Bool
  videojsPlayers : List Player
  namedPlayers : List Player
  dispatchThrows : KTarget → Bool

/-- The result object returned by skipTrack. Fields missing from a
given JS return are none / []. -/
structure SkipResult where
  success : Bool
  method : Option String
  error : Option String
  methodsTried : List String
deriving DecidableEq, Repr

/-- Observable side effects of a skipTrack run, in order: a button
click (selector and element), entering the media-session attempt,
invoking a player method, dispatching the key event to a target.
An attempt is recorded even when the host call throws. -/
inductive Effect where
  | click (selector : String) (eid : Nat)
  | mediaSessionAttempt
  | playerCall
  | keyDispatch (t : KTarget)
deriving DecidableEq, Repr

def buttonClickResult : SkipResult :=
  { success := true, method := some "button-click", error := none, methodsTried := [] }

def mediaSessionResult : SkipResult :=
  { success := true, method := some "media-session", error := none, methodsTried := [] }

def keyboardResult : SkipResult :=
  { success := true, method := some "keyboard-events", error := none, methodsTried := [] }

/-- The exhaustion return shared by both skipTrack variants. -/
def failResult : SkipResult :=
  { success := false
    method := none
    error := some "No supported track skipping method found on this page"
    methodsTried := ["button-click", "media-session", "player-api", "keyboard-events"] }

/-- The first button pass: for each selector in order, query all
matches and take the first visible one; the first selector with a
visible match wins. -/
def firstVisibleMatch (p : Page) : List String → Option (String × Element)
  | [] => none
  | s :: rest =>
    match (p.query s).find? isVisible with
    | some b => some (s, b)
    | none => firstVisibleMatch p rest

/-- The second button pass of the content-script variant: for each
selector, take only querySelector's first match and click it when
visible (a throwing click is caught; element clicks do not throw for
listener errors, so the first visible head wins). -/
def secondButtonPass (p : Page) : List String → Option (String × Element)
  | [] => none
  | s :: rest =>
    match (p.query s).head? with
    | some b => if isVisible b then some (s, b) else secondButtonPass p rest
    | none => secondButtonPass p rest

/-- The players array assembled by the player-API strategy: all
registered video.js players, plus the well-known window globals that
expose a nextTrack function. -/
def pagePlayers (p : Page) : List Player :=
  p.videojsPlayers ++ p.namedPlayers.filter (·.hasNextTrack)

/-- The player loop: per player, in the requested direction, invoke the
matching track method inside a try/catch; a throwing call is logged and
the loop continues; the first call that returns wins. -/
def playerLoop (isNext : Bool) : List Player → Option String × List Effect
  | [] => (none, [])
  | pl :: rest =>
    if isNext && pl.hasNextTrack then
      if pl.nextThrows then
        let r := playerLoop isNext rest
        (r.1, Effect.playerCall :: r.2)
      else (some "player-api-next", [Effect.playerCall])
    else if !isNext && pl.hasPreviousTrack then
      if pl.prevThrows then
        let r := playerLoop isNext rest
        (r.1, Effect.playerCall :: r.2)
      else (some "player-api-prev", [Effect.playerCall])
    else playerLoop isNext rest

/-- The keyboard strategy: one synthesized media-key event is dispatched
to document, window and the active element, each dispatch in its own
try/catch, so all three targets are attempted; the strategy succeeds
when at least one dispatch did not throw. The event constructor takes
literal arguments and does not throw. -/
def keyboardStage (p : Page) : SkipResult × List Effect :=
  let effs := allKTargets.map Effect.keyDispatch
  if allKTargets.any (fun t => !p.dispatchThrows t) then (keyboardResult, effs)
  else (failResult, effs)

/-- The media-session strategy, wrapped around the continuation that
runs when it is skipped or throws: when navigator.mediaSession and
setActionHandler exist, a handler is registered and the event
dispatched; on a throw the attempt is caught and resolution continues. -/
def msStage (cont : SkipResult × List Effect) (p : Page) : SkipResult × List Effect :=
  if p.hasMediaSession && p.hasSetActionHandler then
    if p.mediaSessionThrows then (cont.1, Effect.mediaSessionAttempt :: cont.2)
    else (mediaSessionResult, [Effect.mediaSessionAttempt])
  else cont

namespace Content

/-- commonButtonSelectors[direction] || []: the next and prev selector
lists of the content-script variant; any other direction string indexes
a missing key and yields the empty list. -/
def buttonSelectorsFor (direction : String) : List String :=
  if direction == "next" then
    [".ytp-next-button", ".ytp-next-arrow",
     ".spoticon-skip-forward",
     "[data-testid=\"control-button-skip-forward\"]",
     "[data-testid=\"next\"]",
     "button[title*=\"next\" i]",
     "button[aria-label*=\"next\" i]",
     ".next", ".next-button", ".skip-forward"]
  else if direction == "prev" then
    [".ytp-prev-button", ".ytp-prev-arrow",
     ".spoticon-skip-back",
     "[data-testid=\"control-button-skip-back\"]",
     "[data-testid=\"previous\"]",
     "button[title*=\"previous\" i]",
     "button[aria-label*=\"previous\" i]",
     ".prev", ".previous", ".previous-button", ".skip-back"]
  else []

/-- Stages 3 to 5 of the content-script variant: player APIs, the
second button pass, then keyboard events, with the effect traces
concatenated in execution order. -/
def afterMs (isNext : Bool) (p : Page) (sels : List String) : SkipResult × List Effect :=
  match playerLoop isNext (pagePlayers p) with
  | (some meth, effs) =>
    ({ success := true, method := some meth, error := none, methodsTried := [] }, effs)
  | (none, effs) =>
    match secondButtonPass p sels with
    | some sb => (buttonClickResult, effs ++ [Effect.click sb.1 sb.2.eid])
    | none =>
      let kb := keyboardStage p
      (kb.1, effs ++ kb.2)

/-- skipTrack(direction) of the content-script variant: the dead
mediaWithTracks computation, then the visible-button pass (immediate
return on a click), then media session, player APIs, the second button
pass and keyboard events as a last resort. -/
def skipTrack (direction : String) (p : Page) : SkipResult × List Effect :=
  let isNext := direction == "next"
  let _mediaWithTracks := p.mediaElements.filter (fun m =>
    (direction == "next" && m.hasNextTrack) ||
    (direction == "prev" && m.hasPreviousTrack) ||
    decide (1 < m.audioTracksCount))
  let sels := buttonSelectorsFor direction
  match firstVisibleMatch p sels with
  | some sb => (buttonClickResult, [Effect.click sb.1 sb.2.eid])
  | none => msStage (afterMs isNext p sels) p

end Content

namespace Legacy

/-- The flattened selector list of the standalone content script,
chosen per direction by isNext ternaries in each group. -/
def buttonSelectors (isNext : Bool) : List String :=
  (if isNext then
    ["button[title*=\"next\" i]", "button[aria-label*=\"next\" i]",
     ".next", ".next-button", ".skip-button", ".skip-forward"]
   else
    ["button[title*=\"previous\" i]", "button[aria-label*=\"previous\" i]",
     ".prev", ".previous", ".previous-button", ".skip-back"]) ++
  (if isNext then [".ytp-next-button", ".ytp-next-arrow", ".video-next-button"]
   else [".ytp-prev-button", ".ytp-prev-arrow", ".video-prev-button"]) ++
  (if isNext then [".spoticon-skip-forward", ".skip-control__next", ".player-controls__next"]
   else [".spoticon-skip-back", ".skip-control__previous", ".player-controls__previous"]) ++
  (if isNext then ["[data-testid=\"control-button-skip-forward\"]", "[data-testid=\"next\"]"]
   else ["[data-testid=\"control-button-skip-back\"]", "[data-testid=\"previous\"]"])

/-- Stages 3 and 4 of the standalone variant: player APIs then
keyboard events. -/
def afterMs (isNext : Bool) (p : Page) : SkipResult × List Effect :=
  match playerLoop isNext (pagePlayers p) with
  | (some meth, effs) =>
    ({ success := true, method := some meth, error := none, methodsTried := [] }, effs)
  | (none, effs) =>
    let kb := keyboardStage p
    (kb.1, effs ++ kb.2)

/-- skipTrack(direction) of the standalone content script: button pass,
media session, player APIs, keyboard events. -/
def skipTrack (direction : String) (p : Page) : SkipResult × List Effect :=
  let isNext := direction == "next"
  let sels := buttonSelectors isNext
  match firstVisibleMatch p sels with
  | some sb => (buttonClickResult, [Effect.click sb.1 sb.2.eid])
  | none => msStage (afterMs isNext p) p

end Legacy

/-! ## Cache lemmas -/

lemma mem_ids_iff {m : Cache} {i : Nat} : i ∈ ids m ↔ ∃ r ∈ m, r.id = i := by
  simp [ids]

lemma mapHas_true_iff {m : Cache} {i : Nat} : mapHas m i = true ↔ ∃ r ∈ m, r.id = i := by
  simp [mapHas]

lemma mapHas_false_iff {m : Cache} {i : Nat} : mapHas m i = false ↔ ∀ r ∈ m, r.id ≠ i := by
  simp [mapHas]

lemma ids_map_keep {m : Cache} {i : Nat} {g : TabRecord → TabRecord}
    (hg : ∀ x : TabRecord, x.id = i → (g x).id = x.id) :
    ids (m.map (fun x => if x.id == i then g x else x)) = ids m := by
  induction m with
  | nil => rfl
  | cons a l ih =>
    rcases eq_or_ne a.id i with h | h
    · simp only [ids, List.map_cons] at ih ⊢
      rw [if_pos (by simpa using h)]
      simpa [hg a h] using ih
    · simp only [ids, List.map_cons] at ih ⊢
      rw [if_neg (by simpa using h)]
      simpa using ih

lemma find?_map_replace {m : Cache} {i : Nat} {g : TabRecord → TabRecord}
    (hg : ∀ x : TabRecord, x.id = i → (g x).id = i) (h : mapHas m i = true) :
    (m.map (fun x => if x.id == i then g x else x)).find? (fun r => r.id == i)
      = (m.find? (fun r => r.id == i)).map g := by
  induction m with
  | nil => simp [mapHas] at h
  | cons a l ih =>
    rcases eq_or_ne a.id i with ha | ha
    · rw [List.map_cons, if_pos (by simpa using ha)]
      rw [List.find?_cons_of_pos _ (by simpa using hg a ha),
        List.find?_cons_of_pos _ (by simpa using ha)]
      rfl
    · rw [List.map_cons, if_neg (by simpa using ha)]
      rw [List.find?_cons_of_neg _ (by simpa using ha),
        List.find?_cons_of_neg _ (by simpa using ha)]
      refine ih ?_
      rcases mapHas_true_iff.mp h with ⟨r, hr, hri⟩
      rcases List.mem_cons.mp hr with rfl | hr
      · exact absurd hri ha
      · exact mapHas_true_iff.mpr ⟨r, hr, hri⟩

lemma mem_map_replace {m : Cache} {i : Nat} {g : TabRecord → TabRecord}
    {x : TabRecord} (hx : x ∈ m) (hne : x.id ≠ i) :
    x ∈ m.map (fun x => if x.id == i then g x else x) := by
  have : (fun y : TabRecord => if y.id == i then g y else y) x = x := by
    simp [hne]
  exact this ▸ List.mem_map_of_mem _ hx

/-- C10: a call to upsertFromTab with a null/undefined tab argument, or
with a tab whose id is null or undefined, returns false (embedded as
none) and leaves the cache completely unchanged. -/
theorem upsert_null_guard :
    (∀ (m : Cache) (now : Nat), upsertFromTab m now none = (m, none)) ∧
    (∀ (m : Cache) (now : Nat) (title url : String) (aud mu : Bool),
      upsertFromTab m now (some ⟨none, title, url, aud, mu⟩) = (m, none)) :=
  ⟨fun _ _ => rfl, fun _ _ _ _ _ _ => rfl⟩

lemma upsertEq_audible_has {m : Cache} {now : Nat} {t : TabSnapshot} {i : Nat}
    (ht : t.id = some i) (ha : t.audible = true) (hw : mapHas m i = true) :
    upsertFromTab m now (some t) =
      (m.map (fun x => if x.id == i then freshRecord t i now else x),
       some ChangeKind.updated) := by
  have hid : (freshRecord t i now).id = i := rfl
  simp only [upsertFromTab, ht, ha, if_true, mapSet, hid, hw]

lemma upsertEq_audible_new {m : Cache} {now : Nat} {t : TabSnapshot} {i : Nat}
    (ht : t.id = some i) (ha : t.audible = true) (hw : mapHas m i = false) :
    upsertFromTab m now (some t) =
      (m ++ [freshRecord t i now], some ChangeKind.added) := by
  have hid : (freshRecord t i now).id = i := rfl
  simp only [upsertFromTab, ht, ha, if_true, mapSet, hid, hw]
  simp

lemma upsertEq_inactive_has {m : Cache} {now : Nat} {t : TabSnapshot} {i : Nat}
    (ht : t.id = some i) (ha : t.audible = false) (hw : mapHas m i = true) :
    upsertFromTab m now (some t) =
      (m.map (fun x => if x.id == i then markInactive now x else x),
       some ChangeKind.updated) := by
  simp only [upsertFromTab, ht, ha, hw]
  simp

lemma upsertEq_inactive_new {m : Cache} {now : Nat} {t : TabSnapshot} {i : Nat}
    (ht : t.id = some i) (ha : t.audible = false) (hw : mapHas m i = false) :
    upsertFromTab m now (some t) = (m, none) := by
  simp only [upsertFromTab, ht, ha, hw]
  simp

lemma nodup_ids_upsert {m : Cache} (now : Nat) (tab : Option TabSnapshot)
    (h : (ids m).Nodup) : (ids (upsertFromTab m now tab).1).Nodup := by
  match tab with
  | none => exact h
  | some t =>
    match ht : t.id with
    | none =>
      have : upsertFromTab m now (some t) = (m, none) := by
        simp only [upsertFromTab, ht]
      simpa [this] using h
    | some i =>
      by_cases haud : t.audible = true
      · by_cases hw : mapHas m i = true
        · rw [upsertEq_audible_has ht haud hw]
          have heq := ids_map_keep (m := m) (i := i)
            (g := fun _ => freshRecord t i now) (fun x hx => by simp [freshRecord, hx])
          rw [heq]
          exact h
        · have hw2 : mapHas m i = false := by simpa using hw
          rw [upsertEq_audible_new ht haud hw2]
          have hnotin : i ∉ ids m := by
            intro hin
            rcases mem_ids_iff.mp hin with ⟨r, hr, hri⟩
            exact (mapHas_false_iff.mp hw2 r hr) hri
          have : ids (m ++ [freshRecord t i now]) = ids m ++ [i] := by
            simp [ids, freshRecord]
          rw [this]
          simp [List.nodup_append]
          exact ⟨h, by simpa [mem_ids_iff] using hnotin⟩
      · have ha2 : t.audible = false := by simpa using haud
        by_cases hw : mapHas m i = true
        · rw [upsertEq_inactive_has ht ha2 hw]
          have heq := ids_map_keep (m := m) (i := i)
            (g := markInactive now) (fun x _ => rfl)
          rw [heq]
          exact h
        · have hw2 : mapHas m i = false := by simpa using hw
          rw [upsertEq_inactive_new ht ha2 hw2]
          exact h

/-- Driver for C8: a sequence of upsertFromTab calls applied from a
starting cache, each call carrying its own timestamp and tab snapshot. -/
def applyUpserts (m : Cache) (calls : List (Nat × Option TabSnapshot)) : Cache :=
  calls.foldl (fun acc c => (upsertFromTab acc c.1 c.2).1) m

/-- C8: for every sequence of upsert calls starting from the empty
cache, at every point of the sequence the cache never contains two
records with the same tab id. -/
theorem cache_unique_ids :
    ∀ (calls : List (Nat × Option TabSnapshot)) (n : Nat),
      (ids (applyUpserts [] (calls.take n))).Nodup := by
  have key : ∀ (calls : List (Nat × Option TabSnapshot)) (m : Cache),
      (ids m).Nodup → (ids (applyUpserts m calls)).Nodup := by
    intro calls
    induction calls with
    | nil => intro m h; exact h
    | cons c cs ih =>
      intro m h
      exact ih _ (nodup_ids_upsert c.1 c.2 h)
  intro calls n
  exact key _ _ (by simp [ids])

lemma find?_isSome_of_mapHas {m : Cache} {i : Nat} (hw : mapHas m i = true) :
    ∃ y, m.find? (fun r => r.id == i) = some y := by
  rcases mapHas_true_iff.mp hw with ⟨r, hr, hri⟩
  rcases hy : m.find? (fun r => r.id == i) with _ | y
  · exact absurd (by simpa using List.find?_eq_none.mp hy r hr) (by simp [hri])
  · exact ⟨y, hy⟩

/-- C1: for every host tab snapshot passed to upsert with a non-null id:
if audible is true a record is created (returning added) or refreshed
with the current metadata and a fresh lastActiveAt equal to now
(returning updated); if audible is false and a record for that id
exists, that record keeps its position, its audible flag is set to
false, it is not deleted, and updated is returned; if audible is false
and no record exists, the cache is unchanged and none (JS false) is
returned. -/
theorem cache_upsert_spec :
    (∀ (m : Cache) (now : Nat) (t : TabSnapshot) (i : Nat),
       t.id = some i → t.audible = true → mapHas m i = false →
       upsertFromTab m now (some t) = (m ++ [freshRecord t i now], some ChangeKind.added)) ∧
    (∀ (m : Cache) (now : Nat) (t : TabSnapshot) (i : Nat),
       t.id = some i → t.audible = true → mapHas m i = true →
       (upsertFromTab m now (some t)).2 = some ChangeKind.updated ∧
       ids (upsertFromTab m now (some t)).1 = ids m ∧
       mapGet (upsertFromTab m now (some t)).1 i = some (freshRecord t i now) ∧
       ∀ x ∈ m, x.id ≠ i → x ∈ (upsertFromTab m now (some t)).1) ∧
    (∀ (m : Cache) (now : Nat) (t : TabSnapshot) (i : Nat),
       t.id = some i → t.audible = false → mapHas m i = true →
       (upsertFromTab m now (some t)).2 = some ChangeKind.updated ∧
       ids (upsertFromTab m now (some t)).1 = ids m ∧
       mapGet (upsertFromTab m now (some t)).1 i = (mapGet m i).map (markInactive now) ∧
       (∀ r : TabRecord, mapGet (upsertFromTab m now (some t)).1 i = some r →
         r.audible = false) ∧
       ∀ x ∈ m, x.id ≠ i → x ∈ (upsertFromTab m now (some t)).1) ∧
    (∀ (m : Cache) (now : Nat) (t : TabSnapshot) (i : Nat),
       t.id = some i → t.audible = false → mapHas m i = false →
       upsertFromTab m now (some t) = (m, none)) := by
  refine ⟨?_, ?_, ?_, ?_⟩
  · intro m now t i ht ha hw
    exact upsertEq_audible_new ht ha hw
  · intro m now t i ht ha hw
    rw [upsertEq_audible_has ht ha hw]
    refine ⟨rfl, ids_map_keep (fun x hx => by simp [freshRecord, hx]), ?_, ?_⟩
    · have hrep := find?_map_replace (m := m) (i := i)
        (g := fun _ => freshRecord t i now) (fun x _ => rfl) hw
      rcases find?_isSome_of_mapHas hw with ⟨y, hy⟩
      simpa [mapGet, hy] using hrep
    · intro x hx hne
      exact mem_map_replace hx hne
  · intro m now t i ht ha hw
    rw [upsertEq_inactive_has ht ha hw]
    have hrep := find?_map_replace (m := m) (i := i)
      (g := markInactive now) (fun x hx => by simp [markInactive, hx]) hw
    refine ⟨rfl, ids_map_keep (fun x _ => rfl), by simpa [mapGet] using hrep, ?_, ?_⟩
    · intro r hr
      rcases find?_isSome_of_mapHas hw with ⟨y, hy⟩
      rw [show mapGet
          (m.map (fun x => if x.id == i then markInactive now x else x),
            some ChangeKind.updated).1 i = (mapGet m i).map (markInactive now) from
          by simpa [mapGet] using hrep, mapGet, hy] at hr
      cases hr
      rfl
    · intro x hx hne
      exact mem_map_replace hx hne
  · intro m now t i ht ha hw
    exact upsertEq_inactive_new ht ha hw

/-- Inputs for the C1 witness. -/
def tC1 : TabSnapshot := ⟨some 3, "Song", "http:u", true, false⟩

def tC1off : TabSnapshot := ⟨some 3, "Song", "http:u", false, false⟩

theorem cache_upsert_spec_witness :
    upsertFromTab [] 11 (some tC1) = ([freshRecord tC1 3 11], some ChangeKind.added) ∧
    (upsertFromTab [freshRecord tC1 3 11] 25 (some tC1off)).2 = some ChangeKind.updated := by
  constructor
  · exact cache_upsert_spec.1 [] 11 tC1 3 rfl rfl rfl
  · exact (cache_upsert_spec.2.2.1 [freshRecord tC1 3 11] 25 tC1off 3 rfl rfl
      (by decide)).1

/-! ## Popup sync lemmas -/

lemma pushAttempts_eq (ports : List Port) (m : Cache) :
    (pushUpdateToPopup ports m).2.1 = ports.map (·.pid) := by
  cases ports <;> simp [pushUpdateToPopup]

/-- C7: for every cache mutation with connected popups, a post is
attempted on every currently registered port (so a throwing port does
not prevent the push to any other port); a healthy port survives the
push and a throwing one is deregistered by it; the push registers no
new port; and once a popup disconnects its port, that port id is never
targeted by a subsequent push. -/
theorem push_update_ports_spec :
    (∀ (ports : List Port) (m : Cache),
       (pushUpdateToPopup ports m).2.1 = ports.map (·.pid)) ∧
    (∀ (ports : List Port) (m : Cache) (q : Port), q ∈ ports →
       q.postThrows = false → q ∈ (pushUpdateToPopup ports m).1) ∧
    (∀ (ports : List Port) (m : Cache) (q : Port), q ∈ ports →
       q.postThrows = true → q ∉ (pushUpdateToPopup ports m).1) ∧
    (∀ (ports : List Port) (m : Cache) (q : Port),
       q ∈ (pushUpdateToPopup ports m).1 → q ∈ ports) ∧
    (∀ (ports : List Port) (pid : Nat) (m : Cache),
       pid ∉ (pushUpdateToPopup (onPortDisconnect ports pid) m).2.1) := by
  refine ⟨pushAttempts_eq, ?_, ?_, ?_, ?_⟩
  · intro ports m q hq hok
    rcases ports with _ | ⟨a, l⟩
    · cases hq
    · simp only [pushUpdateToPopup]
      rw [if_neg (by simp)]
      exact List.mem_filter.mpr ⟨hq, by simp [hok]⟩
  · intro ports m q hq hthrow
    rcases ports with _ | ⟨a, l⟩
    · cases hq
    · simp only [pushUpdateToPopup]
      rw [if_neg (by simp)]
      intro hmem
      exact absurd ((List.mem_filter.mp hmem).2) (by simp [hthrow])
  · intro ports m q hq
    rcases ports with _ | ⟨a, l⟩
    · exact hq
    · simp only [pushUpdateToPopup] at hq
      rw [if_neg (by simp)] at hq
      exact List.mem_of_mem_filter (p := fun q => !q.postThrows) (by simpa using hq)
  · intro ports pid m hmem
    rw [pushAttempts_eq] at hmem
    rcases List.mem_map.mp hmem with ⟨q, hq, hqp⟩
    have := (List.mem_filter.mp hq).2
    rw [hqp] at this
    simp at this

/-- Ports for the C7 witness. -/
def portA : Port := ⟨1, false⟩

def portB : Port := ⟨2, true⟩

theorem push_update_ports_spec_witness :
    (pushUpdateToPopup [portA, portB] []).2.1 = [1, 2] ∧
    portA ∈ (pushUpdateToPopup [portA, portB] []).1 ∧
    portA ∈ [portA, portB] ∧
    portB ∉ (pushUpdateToPopup [portA, portB] []).1 ∧
    (2 : Nat) ∉ (pushUpdateToPopup (onPortDisconnect [portA, portB] 2) []).2.1 := by
  refine ⟨push_update_ports_spec.1 [portA, portB] [], ?_, by decide, ?_, ?_⟩
  · exact push_update_ports_spec.2.1 [portA, portB] [] portA (by decide) rfl
  · exact push_update_ports_spec.2.2.1 [portA, portB] [] portB (by decide) rfl
  · exact push_update_ports_spec.2.2.2.2 [portA, portB] 2 []

/-! ## Retention and eviction lemmas -/

lemma getAudibleTabs_fst (m : Cache) (now : Nat) :
    (getAudibleTabs m now).1 = cleanupOldTabs m now := rfl

lemma getAudibleTabs_snd (m : Cache) (now : Nat) :
    (getAudibleTabs m now).2 = (cleanupOldTabs m now).filter
      (fun t => t.audible || decide (now - t.lastActive < TAB_RETENTION_MS)) := rfl

/-- C2 (amended): the get_media_tabs read path, getAudibleTabs, does run
eviction first: neither the evicted cache nor the returned list ever
contains a record with audible=false whose retention window has
elapsed. (The onConnect snapshot and the pushed snapshots do not; see
the counterexample.) -/
theorem getAudibleTabs_no_stale :
    ∀ (m : Cache) (now : Nat) (r : TabRecord),
      (r ∈ (getAudibleTabs m now).1 ∨ r ∈ (getAudibleTabs m now).2) →
      r.audible = false → now - r.lastActive < TAB_RETENTION_MS := by
  intro m now r hmem haud
  have h1 : r ∈ cleanupOldTabs m now := by
    rcases hmem with h | h
    · rw [getAudibleTabs_fst] at h
      exact h
    · rw [getAudibleTabs_snd] at h
      exact List.mem_of_mem_filter h
  have h2 := (List.mem_filter.mp h1).2
  simp [haud] at h2
  exact h2

/-- Record used by the C2 counterexample and witness. -/
def staleRecC2 : TabRecord := ⟨7, "old", "u", false, false, 0⟩

/-- C2 counterexample: at time 1800000 the record staleRecC2 is stale
(audible=false and a full retention window past lastActive), and while
getAudibleTabs would drop it, both the snapshot the onConnect listener
sends to a newly connected popup and the tabs array pushed by
pushUpdateToPopup still contain it: those two read paths do not run
eviction first. -/
theorem snapshot_stale_counterexample :
    staleRecC2.audible = false ∧
    TAB_RETENTION_MS ≤ 1800000 - staleRecC2.lastActive ∧
    staleRecC2 ∈ onConnectSnapshot [staleRecC2] ∧
    (staleRecC2, false) ∈ (pushUpdateToPopup [⟨1, false⟩] [staleRecC2]).2.2 ∧
    staleRecC2 ∉ (getAudibleTabs [staleRecC2] 1800000).2 := by
  decide

def freshRecC2 : TabRecord := ⟨2, "b", "", false, false, 100⟩

theorem getAudibleTabs_no_stale_witness :
    (200 : Nat) - freshRecC2.lastActive < TAB_RETENTION_MS :=
  getAudibleTabs_no_stale [freshRecC2] 200 freshRecC2 (Or.inr (by decide)) rfl

lemma eq_of_mem_nodup_ids {m : Cache} (h : (ids m).Nodup) {a b : TabRecord}
    (ha : a ∈ m) (hb : b ∈ m) (hid : a.id = b.id) : a = b := by
  induction m with
  | nil => cases ha
  | cons x l ih =>
    rw [ids, List.map_cons, List.nodup_cons] at h
    rcases List.mem_cons.mp ha with rfl | ha2
    · rcases List.mem_cons.mp hb with rfl | hb2
      · rfl
      · exact absurd (mem_ids_iff.mpr ⟨b, hb2, hid.symm⟩) h.1
    · rcases List.mem_cons.mp hb with rfl | hb2
      · exact absurd (mem_ids_iff.mpr ⟨a, ha2, hid⟩) h.1
      · exact ih h.2 ha2 hb2

lemma notMem_ids_filter {m : Cache} {i : Nat} {p : TabRecord → Bool}
    (h : i ∉ ids m) : i ∉ ids (m.filter p) := by
  intro hin
  rcases mem_ids_iff.mp hin with ⟨r, hr, hri⟩
  exact h (mem_ids_iff.mpr ⟨r, List.mem_of_mem_filter hr, hri⟩)

lemma notMem_ids_applyOp {m : Cache} {i : Nat} {op : CacheOp}
    (h : i ∉ ids m) (hop : audibleUpsertFor i op = false) :
    i ∉ ids (applyOp m op) := by
  match op with
  | CacheOp.cleanupOp now => exact notMem_ids_filter h
  | CacheOp.removeOp j => exact notMem_ids_filter h
  | CacheOp.upsertOp now tab =>
    match tab with
    | none => exact h
    | some t =>
      match ht : t.id with
      | none =>
        have heq : upsertFromTab m now (some t) = (m, none) := by
          simp only [upsertFromTab, ht]
        simpa [applyOp, heq] using h
      | some j =>
        have happ : applyOp m (CacheOp.upsertOp now (some t)) =
            (upsertFromTab m now (some t)).1 := rfl
        by_cases haud : t.audible = true
        · have hji : j ≠ i := by
            simp [audibleUpsertFor, ht, haud] at hop
            exact hop
          by_cases hw : mapHas m j = true
          · rw [happ, upsertEq_audible_has ht haud hw]
            rw [show ((m.map (fun x => if x.id == j then freshRecord t j now else x),
                (some ChangeKind.updated : Option ChangeKind))).1 =
              m.map (fun x => if x.id == j then freshRecord t j now else x) from rfl]
            rw [ids_map_keep (g := fun _ => freshRecord t j now)
              (fun x hx => by simp [freshRecord, hx])]
            exact h
          · have hw2 : mapHas m j = false := by simpa using hw
            rw [happ, upsertEq_audible_new ht haud hw2]
            have heq : ids (m ++ [freshRecord t j now]) = ids m ++ [j] := by
              simp [ids, freshRecord]
            rw [show ((m ++ [freshRecord t j now],
                (some ChangeKind.added : Option ChangeKind))).1 =
              m ++ [freshRecord t j now] from rfl, heq]
            simp only [List.mem_append, List.mem_singleton]
            rintro (hin | rfl)
            · exact h hin
            · exact hji rfl
        · have ha2 : t.audible = false := by simpa using haud
          by_cases hw : mapHas m j = true
          · rw [happ, upsertEq_inactive_has ht ha2 hw]
            rw [show ((m.map (fun x => if x.id == j then markInactive now x else x),
                (some ChangeKind.updated : Option ChangeKind))).1 =
              m.map (fun x => if x.id == j then markInactive now x else x) from rfl]
            rw [ids_map_keep (g := markInactive now) (fun x _ => rfl)]
            exact h
          · have hw2 : mapHas m j = false := by simpa using hw
            rw [happ, upsertEq_inactive_new ht ha2 hw2]
            exact h

lemma notMem_ids_applyOps {i : Nat} :
    ∀ (ops : List CacheOp) (m : Cache), i ∉ ids m →
      (∀ op ∈ ops, audibleUpsertFor i op = false) → i ∉ ids (applyOps m ops) := by
  intro ops
  induction ops with
  | nil => intro m h _; exact h
  | cons op rest ih =>
    intro m h hops
    exact ih (applyOp m op)
      (notMem_ids_applyOp h (hops op (List.mem_cons_self op rest)))
      (fun o ho => hops o (List.mem_cons_of_mem op ho))

/-- C3: for a record r in the cache with audible=false (its flag
transitioned true to false and has not come back): r appears in the
getAudibleTabs result at every time within the retention window; at any
time at which the window has elapsed, the read evicts it, no record
with its id is returned, and after any further event sequence that
contains no audible=true upsert for that id, no later getAudibleTabs
result contains a record with its id. -/
theorem retention_snapshot_spec :
    ∀ (m : Cache) (r : TabRecord), (ids m).Nodup → r ∈ m → r.audible = false →
      (∀ now : Nat, now - r.lastActive < TAB_RETENTION_MS →
        r ∈ (getAudibleTabs m now).2) ∧
      (∀ now : Nat, TAB_RETENTION_MS ≤ now - r.lastActive →
        (∀ r2 ∈ (getAudibleTabs m now).2, r2.id ≠ r.id) ∧
        r.id ∉ ids (getAudibleTabs m now).1 ∧
        ∀ ops : List CacheOp, (∀ op ∈ ops, audibleUpsertFor r.id op = false) →
          ∀ now2 : Nat,
            ∀ r2 ∈ (getAudibleTabs (applyOps (getAudibleTabs m now).1 ops) now2).2,
              r2.id ≠ r.id) := by
  intro m r hnd hr haud
  constructor
  · intro now hlt
    rw [getAudibleTabs_snd]
    refine List.mem_filter.mpr ⟨List.mem_filter.mpr ⟨hr, ?_⟩, ?_⟩
    · simp [haud]
      exact hlt
    · simp [haud]
      exact hlt
  · intro now hge
    have hnot : r.id ∉ ids (cleanupOldTabs m now) := by
      intro hin
      rcases mem_ids_iff.mp hin with ⟨r2, hr2, hid⟩
      have hr2m : r2 ∈ m := List.mem_of_mem_filter hr2
      have : r2 = r := eq_of_mem_nodup_ids hnd hr2m hr hid
      subst this
      have hkeep := (List.mem_filter.mp hr2).2
      simp [haud] at hkeep
      omega
    refine ⟨?_, by rw [getAudibleTabs_fst]; exact hnot, ?_⟩
    · intro r2 hr2 hid
      rw [getAudibleTabs_snd] at hr2
      exact hnot (mem_ids_iff.mpr ⟨r2, List.mem_of_mem_filter hr2, hid⟩)
    · intro ops hops now2 r2 hr2 hid
      have h2 : r.id ∉ ids (applyOps (getAudibleTabs m now).1 ops) := by
        refine notMem_ids_applyOps ops _ ?_ hops
        rw [getAudibleTabs_fst]
        exact hnot
      rw [getAudibleTabs_snd] at hr2
      exact h2 (mem_ids_iff.mpr
        ⟨r2, List.mem_of_mem_filter (List.mem_of_mem_filter hr2), hid⟩)

/-- Record used by the C3 witness: inaudible since time 0. -/
def rC3 : TabRecord := ⟨1, "a", "", false, false, 0⟩

theorem retention_snapshot_spec_witness :
    rC3 ∈ (getAudibleTabs [rC3] 5).2 ∧
    rC3.id ∉ ids (getAudibleTabs [rC3] 1800000).1 := by
  have h := retention_snapshot_spec [rC3] rC3 (by decide) (by decide) rfl
  exact ⟨h.1 5 (by decide), (h.2 1800000 (by decide)).2.1⟩

/-! ## Skip resolver lemmas -/

lemma find?_eq_some_split {α : Type} {q : α → Bool} {l : List α} {b : α}
    (h : l.find? q = some b) :
    ∃ l1 l2, l = l1 ++ b :: l2 ∧ q b = true ∧ ∀ x ∈ l1, q x = false := by
  induction l with
  | nil => cases h
  | cons a l ih =>
    by_cases ha : q a = true
    · rw [List.find?_cons_of_pos _ ha] at h
      cases h
      exact ⟨[], l, rfl, ha, by intro x hx; cases hx⟩
    · rw [List.find?_cons_of_neg _ (by simpa using ha)] at h
      obtain ⟨l1, l2, rfl, hb, hall⟩ := ih h
      refine ⟨a :: l1, l2, rfl, hb, ?_⟩
      intro x hx
      rcases List.mem_cons.mp hx with rfl | hx2
      · simpa using ha
      · exact hall x hx2

lemma firstVisibleMatch_cons_some {p : Page} {s : String} {rest : List String}
    {b : Element} (hf : (p.query s).find? isVisible = some b) :
    firstVisibleMatch p (s :: rest) = some (s, b) := by
  simp [firstVisibleMatch, hf]

lemma firstVisibleMatch_cons_none {p : Page} {s : String} {rest : List String}
    (hf : (p.query s).find? isVisible = none) :
    firstVisibleMatch p (s :: rest) = firstVisibleMatch p rest := by
  simp [firstVisibleMatch, hf]

lemma firstVisibleMatch_some {p : Page} {sels : List String} {sel : String}
    {btn : Element} (h : firstVisibleMatch p sels = some (sel, btn)) :
    ∃ l1 l2, sels = l1 ++ sel :: l2 ∧
      (∀ s2 ∈ l1, ∀ e ∈ p.query s2, isVisible e = false) ∧
      (p.query sel).find? isVisible = some btn := by
  induction sels with
  | nil => cases h
  | cons s rest ih =>
    cases hf : (p.query s).find? isVisible with
    | some b =>
      rw [firstVisibleMatch_cons_some hf] at h
      have h2 := Option.some.inj h
      have hs : s = sel := congrArg Prod.fst h2
      have hb : b = btn := congrArg Prod.snd h2
      subst hs
      subst hb
      refine ⟨[], rest, rfl, ?_, hf⟩
      intro x hx
      cases hx
    | none =>
      rw [firstVisibleMatch_cons_none hf] at h
      obtain ⟨l1, l2, heq, hinv, hfind⟩ := ih h
      refine ⟨s :: l1, l2, by rw [heq]; rfl, ?_, hfind⟩
      intro s2 hs2 e he
      rcases List.mem_cons.mp hs2 with rfl | hs3
      · simpa using List.find?_eq_none.mp hf e he
      · exact hinv s2 hs3 e he

lemma firstVisibleMatch_isSome_of_exists {p : Page} {sels : List String}
    (h : ∃ s ∈ sels, ∃ e ∈ p.query s, isVisible e = true) :
    ∃ sb, firstVisibleMatch p sels = some sb := by
  induction sels with
  | nil => simp at h
  | cons s rest ih =>
    cases hf : (p.query s).find? isVisible with
    | some b => exact ⟨(s, b), firstVisibleMatch_cons_some hf⟩
    | none =>
      rcases h with ⟨s2, hs2, e, he, hv⟩
      rcases List.mem_cons.mp hs2 with rfl | hs3
      · exact absurd hv (by simpa using List.find?_eq_none.mp hf e he)
      · obtain ⟨sb, hsb⟩ := ih ⟨s2, hs3, e, he, hv⟩
        exact ⟨sb, by rw [firstVisibleMatch_cons_none hf]; exact hsb⟩

lemma firstVisibleMatch_none_all {p : Page} {sels : List String}
    (h : firstVisibleMatch p sels = none) :
    ∀ s ∈ sels, ∀ e ∈ p.query s, isVisible e = false := by
  induction sels with
  | nil => intro s hs; cases hs
  | cons s0 rest ih =>
    cases hf : (p.query s0).find? isVisible with
    | some b => rw [firstVisibleMatch_cons_some hf] at h; cases h
    | none =>
      rw [firstVisibleMatch_cons_none hf] at h
      intro s hs e he
      rcases List.mem_cons.mp hs with rfl | hs2
      · simpa using List.find?_eq_none.mp hf e he
      · exact ih h s hs2 e he

lemma secondButtonPass_none_of_all {p : Page} {sels : List String}
    (h : ∀ s ∈ sels, ∀ e ∈ p.query s, isVisible e = false) :
    secondButtonPass p sels = none := by
  induction sels with
  | nil => rfl
  | cons s0 rest ih =>
    have hrest : secondButtonPass p rest = none :=
      ih (fun s hs e he => h s (List.mem_cons_of_mem _ hs) e he)
    cases hq : p.query s0 with
    | nil => simp [secondButtonPass, hq, hrest]
    | cons x xs =>
      have hx : isVisible x = false :=
        h s0 (List.mem_cons_self _ _) x (by rw [hq]; exact List.mem_cons_self _ _)
      simp [secondButtonPass, hq, hx, hrest]

lemma fvm_none_of_empty {p : Page} (hq : ∀ s, p.query s = [])
    (sels : List String) : firstVisibleMatch p sels = none := by
  induction sels with
  | nil => rfl
  | cons s rest ih => simp [firstVisibleMatch, hq s, ih]

lemma contentSkipTrack_fvm_some {d : String} {p : Page} {sel : String} {btn : Element}
    (h : firstVisibleMatch p (Content.buttonSelectorsFor d) = some (sel, btn)) :
    Content.skipTrack d p = (buttonClickResult, [Effect.click sel btn.eid]) := by
  simp [Content.skipTrack, h]

lemma contentSkipTrack_fvm_none {d : String} {p : Page}
    (h : firstVisibleMatch p (Content.buttonSelectorsFor d) = none) :
    Content.skipTrack d p =
      msStage (Content.afterMs (d == "next") p (Content.buttonSelectorsFor d)) p := by
  simp [Content.skipTrack, h]

lemma legacySkipTrack_fvm_some {d : String} {p : Page} {sel : String} {btn : Element}
    (h : firstVisibleMatch p (Legacy.buttonSelectors (d == "next")) = some (sel, btn)) :
    Legacy.skipTrack d p = (buttonClickResult, [Effect.click sel btn.eid]) := by
  simp [Legacy.skipTrack, h]

lemma legacySkipTrack_fvm_none {d : String} {p : Page}
    (h : firstVisibleMatch p (Legacy.buttonSelectors (d == "next")) = none) :
    Legacy.skipTrack d p = msStage (Legacy.afterMs (d == "next") p) p := by
  simp [Legacy.skipTrack, h]

lemma msStage_pass {cont : SkipResult × List Effect} {p : Page}
    (h : (p.hasMediaSession && p.hasSetActionHandler && !p.mediaSessionThrows) = false) :
    ∃ pre : List Effect, msStage cont p = (cont.1, pre ++ cont.2) := by
  unfold msStage
  by_cases h1 : (p.hasMediaSession && p.hasSetActionHandler) = true
  · have h2 : p.mediaSessionThrows = true := by
      simp [h1] at h
      exact h
    rw [if_pos h1, if_pos h2]
    exact ⟨[Effect.mediaSessionAttempt], rfl⟩
  · rw [if_neg h1]
    exact ⟨[], rfl⟩

lemma msStage_fail {cont : SkipResult × List Effect} {p : Page}
    (h : (msStage cont p).1.success = false) :
    (msStage cont p).1 = cont.1 ∧ cont.1.success = false := by
  unfold msStage at h ⊢
  by_cases h1 : (p.hasMediaSession && p.hasSetActionHandler) = true
  · by_cases h2 : p.mediaSessionThrows = true
    · rw [if_pos h1, if_pos h2] at h ⊢
      exact ⟨rfl, h⟩
    · rw [if_pos h1, if_neg h2] at h
      exact absurd h (by simp [mediaSessionResult])
  · rw [if_neg h1] at h ⊢
    exact ⟨rfl, h⟩

lemma keyboardStage_effs (p : Page) :
    (keyboardStage p).2 = allKTargets.map Effect.keyDispatch := by
  unfold keyboardStage
  split <;> rfl

lemma keyboardStage_success_iff (p : Page) :
    (keyboardStage p).1.success = true ↔ ∃ t, p.dispatchThrows t = false := by
  unfold keyboardStage
  by_cases hc : (allKTargets.any (fun t => !p.dispatchThrows t)) = true
  · rw [if_pos hc]
    constructor
    · intro _
      obtain ⟨t, _, ht⟩ := List.any_eq_true.mp hc
      exact ⟨t, by simpa using ht⟩
    · intro _
      rfl
  · rw [if_neg hc]
    constructor
    · intro h
      exact absurd h (by simp [failResult])
    · rintro ⟨t, ht⟩
      exfalso
      apply hc
      refine List.any_eq_true.mpr ⟨t, ?_, by simp [ht]⟩
      cases t <;> simp [allKTargets]

lemma keyboardStage_fail {p : Page} (h : (keyboardStage p).1.success = false) :
    (keyboardStage p).1 = failResult := by
  unfold keyboardStage at h ⊢
  by_cases hc : (allKTargets.any (fun t => !p.dispatchThrows t)) = true
  · rw [if_pos hc] at h
    exact absurd h (by simp [keyboardResult])
  · rw [if_neg hc]

lemma keyboardStage_method {p : Page} (h : (keyboardStage p).1.success = true) :
    (keyboardStage p).1.method = some "keyboard-events" := by
  unfold keyboardStage at h ⊢
  by_cases hc : (allKTargets.any (fun t => !p.dispatchThrows t)) = true
  · rw [if_pos hc]
    rfl
  · rw [if_neg hc] at h
    exact absurd h (by simp [failResult])

lemma contentAfterMs_player_some {b : Bool} {p : Page} {sels : List String}
    {meth : String} {effs : List Effect}
    (hpl : playerLoop b (pagePlayers p) = (some meth, effs)) :
    Content.afterMs b p sels =
      ({ success := true, method := some meth, error := none, methodsTried := [] },
       effs) := by
  simp [Content.afterMs, hpl]

lemma contentAfterMs_sbp_some {b : Bool} {p : Page} {sels : List String}
    {effs : List Effect} {sb : String × Element}
    (hpl : playerLoop b (pagePlayers p) = (none, effs))
    (hsb : secondButtonPass p sels = some sb) :
    Content.afterMs b p sels =
      (buttonClickResult, effs ++ [Effect.click sb.1 sb.2.eid]) := by
  simp [Content.afterMs, hpl, hsb]

lemma contentAfterMs_kb {b : Bool} {p : Page} {sels : List String}
    {effs : List Effect}
    (hpl : playerLoop b (pagePlayers p) = (none, effs))
    (hsb : secondButtonPass p sels = none) :
    Content.afterMs b p sels =
      ((keyboardStage p).1, effs ++ (keyboardStage p).2) := by
  simp [Content.afterMs, hpl, hsb]

lemma legacyAfterMs_player_some {b : Bool} {p : Page}
    {meth : String} {effs : List Effect}
    (hpl : playerLoop b (pagePlayers p) = (some meth, effs)) :
    Legacy.afterMs b p =
      ({ success := true, method := some meth, error := none, methodsTried := [] },
       effs) := by
  simp [Legacy.afterMs, hpl]

lemma legacyAfterMs_kb {b : Bool} {p : Page} {effs : List Effect}
    (hpl : playerLoop b (pagePlayers p) = (none, effs)) :
    Legacy.afterMs b p = ((keyboardStage p).1, effs ++ (keyboardStage p).2) := by
  simp [Legacy.afterMs, hpl]

lemma contentAfterMs_fail {b : Bool} {p : Page} {sels : List String}
    (h : (Content.afterMs b p sels).1.success = false) :
    (Content.afterMs b p sels).1 = failResult := by
  rcases hpl : playerLoop b (pagePlayers p) with ⟨r1, effs⟩
  cases r1 with
  | some meth =>
    rw [contentAfterMs_player_some hpl] at h
    simp at h
  | none =>
    cases hsb : secondButtonPass p sels with
    | some sb =>
      rw [contentAfterMs_sbp_some hpl hsb] at h
      simp [buttonClickResult] at h
    | none =>
      rw [contentAfterMs_kb hpl hsb] at h ⊢
      exact keyboardStage_fail (by simpa using h)

lemma legacyAfterMs_fail {b : Bool} {p : Page}
    (h : (Legacy.afterMs b p).1.success = false) :
    (Legacy.afterMs b p).1 = failResult := by
  rcases hpl : playerLoop b (pagePlayers p) with ⟨r1, effs⟩
  cases r1 with
  | some meth =>
    rw [legacyAfterMs_player_some hpl] at h
    simp at h
  | none =>
    rw [legacyAfterMs_kb hpl] at h ⊢
    exact keyboardStage_fail (by simpa using h)

lemma button_click_core {p : Page} {sels : List String}
    (h : ∃ s ∈ sels, ∃ e ∈ p.query s, isVisible e = true) :
    ∃ sel btn, firstVisibleMatch p sels = some (sel, btn) ∧
      (∃ l1 l2, sels = l1 ++ sel :: l2 ∧
        ∀ s2 ∈ l1, ∀ e ∈ p.query s2, isVisible e = false) ∧
      (∃ e1 e2, p.query sel = e1 ++ btn :: e2 ∧ isVisible btn = true ∧
        ∀ e ∈ e1, isVisible e = false) := by
  obtain ⟨sb, hsb⟩ := firstVisibleMatch_isSome_of_exists h
  obtain ⟨sel, btn⟩ := sb
  obtain ⟨l1, l2, heq, hinv, hfind⟩ := firstVisibleMatch_some hsb
  obtain ⟨e1, e2, hq, hvb, hall⟩ := find?_eq_some_split hfind
  exact ⟨sel, btn, hsb, ⟨l1, l2, heq, hinv⟩, ⟨e1, e2, hq, hvb, hall⟩⟩

/-- C4: in both skipTrack variants, whenever the page has a visible
element matching some selector of the selector list the resolver uses
for the requested direction, skipTrack returns success with method
button-click, its whole effect trace is the single click of the first
visible match in selector-priority order (so the media-session,
player-API and keyboard strategies are never attempted), the chosen
selector is the first one with a visible match, and the clicked element
is the first visible match of that selector. -/
theorem skipTrack_button_click_first :
    ∀ (d : String) (p : Page),
    ((∃ s ∈ Content.buttonSelectorsFor d, ∃ e ∈ p.query s, isVisible e = true) →
      ∃ sel btn,
        firstVisibleMatch p (Content.buttonSelectorsFor d) = some (sel, btn) ∧
        Content.skipTrack d p = (buttonClickResult, [Effect.click sel btn.eid]) ∧
        (∃ l1 l2, Content.buttonSelectorsFor d = l1 ++ sel :: l2 ∧
          ∀ s2 ∈ l1, ∀ e ∈ p.query s2, isVisible e = false) ∧
        (∃ e1 e2, p.query sel = e1 ++ btn :: e2 ∧ isVisible btn = true ∧
          ∀ e ∈ e1, isVisible e = false)) ∧
    ((∃ s ∈ Legacy.buttonSelectors (d == "next"), ∃ e ∈ p.query s, isVisible e = true) →
      ∃ sel btn,
        firstVisibleMatch p (Legacy.buttonSelectors (d == "next")) = some (sel, btn) ∧
        Legacy.skipTrack d p = (buttonClickResult, [Effect.click sel btn.eid]) ∧
        (∃ l1 l2, Legacy.buttonSelectors (d == "next") = l1 ++ sel :: l2 ∧
          ∀ s2 ∈ l1, ∀ e ∈ p.query s2, isVisible e = false) ∧
        (∃ e1 e2, p.query sel = e1 ++ btn :: e2 ∧ isVisible btn = true ∧
          ∀ e ∈ e1, isVisible e = false)) := by
  intro d p
  constructor
  · intro h
    obtain ⟨sel, btn, hsb, hsels, helem⟩ := button_click_core h
    exact ⟨sel, btn, hsb, contentSkipTrack_fvm_some hsb, hsels, helem⟩
  · intro h
    obtain ⟨sel, btn, hsb, hsels, helem⟩ := button_click_core h
    exact ⟨sel, btn, hsb, legacySkipTrack_fvm_some hsb, hsels, helem⟩

/-- A visible element used by the resolver witnesses. -/
def visBtn : Element := ⟨1, "block", "visible", "1", 10, 10⟩

/-- Page with a visible .next button and nothing else. -/
def pBtn : Page :=
  { query := fun s => if s == ".next" then [visBtn] else []
    mediaElements := []
    hasMediaSession := false
    hasSetActionHandler := false
    mediaSessionThrows := false
    videojsPlayers := []
    namedPlayers := []
    dispatchThrows := fun _ => true }

theorem skipTrack_button_click_first_witness :
    Content.skipTrack "next" pBtn = (buttonClickResult, [Effect.click ".next" 1]) := by
  obtain ⟨sel, btn, hfvm, heq, _, _⟩ :=
    (skipTrack_button_click_first "next" pBtn).1 (by decide)
  have hd : firstVisibleMatch pBtn (Content.buttonSelectorsFor "next")
      = some (".next", visBtn) := by decide
  rw [hd] at hfvm
  have hc : (".next", visBtn) = (sel, btn) := Option.some.inj hfvm
  cases hc
  exact heq

/-- C5: in both skipTrack variants, whenever the resolver fails (all
strategies exhausted without a single success), the returned result is
exactly success=false with the fixed error string and methodsTried
listing the four strategy identifiers in priority order. -/
theorem skipTrack_exhaustion_result :
    (∀ (d : String) (p : Page), (Content.skipTrack d p).1.success = false →
      (Content.skipTrack d p).1 = failResult) ∧
    (∀ (d : String) (p : Page), (Legacy.skipTrack d p).1.success = false →
      (Legacy.skipTrack d p).1 = failResult) := by
  constructor
  · intro d p h
    cases hf : firstVisibleMatch p (Content.buttonSelectorsFor d) with
    | some sb =>
      obtain ⟨sel, btn⟩ := sb
      rw [contentSkipTrack_fvm_some hf] at h
      exact absurd h (by simp [buttonClickResult])
    | none =>
      rw [contentSkipTrack_fvm_none hf] at h ⊢
      obtain ⟨heq, hfail⟩ := msStage_fail h
      rw [heq]
      exact contentAfterMs_fail hfail
  · intro d p h
    cases hf : firstVisibleMatch p (Legacy.buttonSelectors (d == "next")) with
    | some sb =>
      obtain ⟨sel, btn⟩ := sb
      rw [legacySkipTrack_fvm_some hf] at h
      exact absurd h (by simp [buttonClickResult])
    | none =>
      rw [legacySkipTrack_fvm_none hf] at h ⊢
      obtain ⟨heq, hfail⟩ := msStage_fail h
      rw [heq]
      exact legacyAfterMs_fail hfail

/-- Page on which every strategy fails. -/
def pFail : Page :=
  { query := fun _ => []
    mediaElements := []
    hasMediaSession := false
    hasSetActionHandler := false
    mediaSessionThrows := false
    videojsPlayers := []
    namedPlayers := []
    dispatchThrows := fun _ => true }

theorem skipTrack_exhaustion_result_witness :
    (Content.skipTrack "next" pFail).1 = failResult ∧
    (Legacy.skipTrack "prev" pFail).1 = failResult :=
  ⟨skipTrack_exhaustion_result.1 "next" pFail (by decide),
   skipTrack_exhaustion_result.2 "prev" pFail (by decide)⟩

lemma mem_allKTargets (t : KTarget) : t ∈ allKTargets := by
  cases t <;> simp [allKTargets]

/-- C6: in both skipTrack variants, on a page where the button,
media-session and player-API strategies all find nothing, the keyboard
strategy dispatches the synthesized media-key event to all three
targets (document, window and the active element), and the resolver
reports success with method keyboard-events exactly when at least one
of the three dispatches did not throw. -/
theorem skipTrack_keyboard_all_targets :
    ∀ (d : String) (p : Page),
    (firstVisibleMatch p (Content.buttonSelectorsFor d) = none →
     (p.hasMediaSession && p.hasSetActionHandler && !p.mediaSessionThrows) = false →
     (playerLoop (d == "next") (pagePlayers p)).1 = none →
       (∀ t : KTarget, Effect.keyDispatch t ∈ (Content.skipTrack d p).2) ∧
       ((Content.skipTrack d p).1.success = true ↔ ∃ t, p.dispatchThrows t = false) ∧
       ((Content.skipTrack d p).1.success = true →
         (Content.skipTrack d p).1.method = some "keyboard-events")) ∧
    (firstVisibleMatch p (Legacy.buttonSelectors (d == "next")) = none →
     (p.hasMediaSession && p.hasSetActionHandler && !p.mediaSessionThrows) = false →
     (playerLoop (d == "next") (pagePlayers p)).1 = none →
       (∀ t : KTarget, Effect.keyDispatch t ∈ (Legacy.skipTrack d p).2) ∧
       ((Legacy.skipTrack d p).1.success = true ↔ ∃ t, p.dispatchThrows t = false) ∧
       ((Legacy.skipTrack d p).1.success = true →
         (Legacy.skipTrack d p).1.method = some "keyboard-events")) := by
  intro d p
  constructor
  · intro hf hms hpl
    rcases hpl2 : playerLoop (d == "next") (pagePlayers p) with ⟨r1, effs⟩
    rw [hpl2] at hpl
    have hr1 : r1 = none := by simpa using hpl
    subst hr1
    have hsb := secondButtonPass_none_of_all (firstVisibleMatch_none_all hf)
    have hkb := contentAfterMs_kb hpl2 hsb
    obtain ⟨pre, hmseq⟩ :=
      @msStage_pass (Content.afterMs (d == "next") p (Content.buttonSelectorsFor d)) p hms
    have hred : Content.skipTrack d p =
        ((keyboardStage p).1, pre ++ (effs ++ (keyboardStage p).2)) := by
      rw [contentSkipTrack_fvm_none hf, hmseq, hkb]
    rw [hred]
    refine ⟨?_, ?_, ?_⟩
    · intro t
      have ht : Effect.keyDispatch t ∈ (keyboardStage p).2 := by
        rw [keyboardStage_effs]
        exact List.mem_map_of_mem _ (mem_allKTargets t)
      simp only [List.mem_append]
      exact Or.inr (Or.inr ht)
    · exact keyboardStage_success_iff p
    · exact keyboardStage_method
  · intro hf hms hpl
    rcases hpl2 : playerLoop (d == "next") (pagePlayers p) with ⟨r1, effs⟩
    rw [hpl2] at hpl
    have hr1 : r1 = none := by simpa using hpl
    subst hr1
    have hkb := legacyAfterMs_kb hpl2
    obtain ⟨pre, hmseq⟩ :=
      @msStage_pass (Legacy.afterMs (d == "next") p) p hms
    have hred : Legacy.skipTrack d p =
        ((keyboardStage p).1, pre ++ (effs ++ (keyboardStage p).2)) := by
      rw [legacySkipTrack_fvm_none hf, hmseq, hkb]
    rw [hred]
    refine ⟨?_, ?_, ?_⟩
    · intro t
      have ht : Effect.keyDispatch t ∈ (keyboardStage p).2 := by
        rw [keyboardStage_effs]
        exact List.mem_map_of_mem _ (mem_allKTargets t)
      simp only [List.mem_append]
      exact Or.inr (Or.inr ht)
    · exact keyboardStage_success_iff p
    · exact keyboardStage_method

/-- Page with no buttons, no media session, no players, where only the
dispatch to window does not throw. -/
def pKbd : Page :=
  { query := fun _ => []
    mediaElements := []
    hasMediaSession := false
    hasSetActionHandler := false
    mediaSessionThrows := false
    videojsPlayers := []
    namedPlayers := []
    dispatchThrows := fun t =>
      match t with
      | KTarget.win => false
      | _ => true }

theorem skipTrack_keyboard_all_targets_witness :
    (Content.skipTrack "next" pKbd).1.success = true ∧
    (Content.skipTrack "next" pKbd).1.method = some "keyboard-events" ∧
    Effect.keyDispatch KTarget.doc ∈ (Content.skipTrack "next" pKbd).2 := by
  have h := (skipTrack_keyboard_all_targets "next" pKbd).1
    (by decide) (by decide) (by decide)
  have hs : (Content.skipTrack "next" pKbd).1.success = true :=
    h.2.1.mpr ⟨KTarget.win, rfl⟩
  exact ⟨hs, h.2.2 hs, h.1 KTarget.doc⟩

/-- Page with a visible .prev button and nothing else (all dispatches
throw). -/
def pPrevBtn : Page :=
  { query := fun s => if s == ".prev" then [visBtn] else []
    mediaElements := []
    hasMediaSession := false
    hasSetActionHandler := false
    mediaSessionThrows := false
    videojsPlayers := []
    namedPlayers := []
    dispatchThrows := fun _ => true }

/-- C9 counterexample: in the content-script variant, the direction
string "previous" does not behave like the previous direction: on a
page whose only control is a visible .prev button, skipTrack "prev"
clicks it and succeeds with button-click, while skipTrack "previous"
indexes a missing key of commonButtonSelectors, gets an empty selector
list, finds no button, and fails. -/
theorem skipTrack_previous_direction_counterexample :
    Content.skipTrack "previous" pPrevBtn ≠ Content.skipTrack "prev" pPrevBtn := by
  decide

/-- C9 (amended): in the standalone variant every direction other than
"next" behaves exactly as the previous direction; in the content-script
variant this holds only for the exact string "prev": any other
non-"next" direction selects an empty button-selector list, and only on
pages where the button passes find nothing anyway (for instance when no
selector matches anything) does it coincide with the "prev" behaviour. -/
theorem skipTrack_non_next_direction_spec :
    (∀ (d : String) (p : Page), d ≠ "next" →
      Legacy.skipTrack d p = Legacy.skipTrack "prev" p) ∧
    (∀ d : String, d ≠ "next" → d ≠ "prev" → Content.buttonSelectorsFor d = []) ∧
    (∀ (d : String) (p : Page), d ≠ "next" → (∀ s, p.query s = []) →
      Content.skipTrack d p = Content.skipTrack "prev" p) := by
  refine ⟨?_, ?_, ?_⟩
  · intro d p hd
    have h1 : (d == "next") = false := by
      simpa using hd
    have h2 : ("prev" == "next") = false := by decide
    unfold Legacy.skipTrack
    rw [h1, h2]
  · intro d h1 h2
    have hb1 : (d == "next") = false := by simpa using h1
    have hb2 : (d == "prev") = false := by simpa using h2
    unfold Content.buttonSelectorsFor
    rw [hb1, hb2]
    rfl
  · intro d p hd hq
    have h1 : (d == "next") = false := by simpa using hd
    have h2 : ("prev" == "next") = false := by decide
    have key : ∀ sels1 sels2 : List String,
        Content.afterMs false p sels1 = Content.afterMs false p sels2 := by
      intro s1 s2
      have hsb1 : secondButtonPass p s1 = none :=
        secondButtonPass_none_of_all (fun s _ e he => by rw [hq s] at he; cases he)
      have hsb2 : secondButtonPass p s2 = none :=
        secondButtonPass_none_of_all (fun s _ e he => by rw [hq s] at he; cases he)
      rcases hpl : playerLoop false (pagePlayers p) with ⟨r1, effs⟩
      cases r1 with
      | some meth =>
        rw [contentAfterMs_player_some hpl, contentAfterMs_player_some hpl]
      | none =>
        rw [contentAfterMs_kb hpl hsb1, contentAfterMs_kb hpl hsb2]
    rw [contentSkipTrack_fvm_none (fvm_none_of_empty hq _),
      contentSkipTrack_fvm_none (fvm_none_of_empty hq _), h1, h2,
      key (Content.buttonSelectorsFor d) (Content.buttonSelectorsFor "prev")]

theorem skipTrack_non_next_direction_spec_witness :
    Legacy.skipTrack "previous" pFail = Legacy.skipTrack "prev" pFail ∧
    Content.buttonSelectorsFor "previous" = [] ∧
    Content.skipTrack "previous" pFail = Content.skipTrack "prev" pFail :=
  ⟨skipTrack_non_next_direction_spec.1 "previous" pFail (by decide),
   skipTrack_non_next_direction_spec.2.1 "previous" (by decide) (by decide),
   skipTrack_non_next_direction_spec.2.2 "previous" pFail (by decide) (fun _ => rfl)⟩
